import Mathlib

/-!
Verification of the loss functions of the Echino repository
(src/keras_retinanet/losses.py): the smooth-L1 regression loss and the
focal-center classification loss.

A tensor of shape (B, N, K) is embedded as a list of B batches, each a list
of N anchors, each a list of K channel values.  The smooth-L1 loss uses only
field operations and comparisons, so it is embedded over the rationals; the
focal-center loss needs sigmoid/log, so it is embedded over the reals.
-/

namespace Echino

/-! ### Smooth-L1 regression loss (rational embedding) -/

/-- A batched rank-3 tensor over the rationals. -/
abbrev TensorQ := List (List (List ℚ))

/-- Last channel of a row: the source expression y_true[:, :, -1], the
anchor state (-1 ignore, 0 negative, 1 positive). -/
def anchorState (row : List ℚ) : ℚ := row.getLastD 0

/-- All channels but the last: the source expression y_true[:, :, :-1]. -/
def stripState (row : List ℚ) : List ℚ := row.dropLast

/-- Quadratic branch of the piecewise smooth-L1 element loss:
0.5 * sigma_squared * d^2 (source line 139). -/
def quadBranch (sigma_squared d : ℚ) : ℚ := 0.5 * sigma_squared * d ^ 2

/-- Linear branch of the piecewise smooth-L1 element loss:
d - 0.5 / sigma_squared (source line 140). -/
def linBranch (sigma_squared d : ℚ) : ℚ := d - 0.5 / sigma_squared

/-- Per-element smooth-L1 loss of a raw difference x: the code takes
abs first and then selects the branch with backend.where on
abs < 1 / sigma_squared (source lines 135-141). -/
def smoothL1Elem (sigma_squared x : ℚ) : ℚ :=
  if |x| < 1 / sigma_squared then quadBranch sigma_squared |x|
  else linBranch sigma_squared |x|

/-- Element-wise smooth-L1 loss of one gathered anchor row, summed over the
box channels (regression - regression_target, elementwise). -/
def rowLoss (sigma_squared : ℚ) (pred target : List ℚ) : ℚ :=
  ((pred.zip target).map (fun e => smoothL1Elem sigma_squared (e.1 - e.2))).sum

/-- Modelled from the spec: the repository backend module (not under src/)
wraps tf.where / tf.gather_nd; per the spec this is index selection of the
(batch, anchor) positions whose state passes the filter, with gathered rows
aligned by position.  Here: filter the position-aligned (target, prediction)
row pairs by the state predicate. -/
def selectPositive (rows : List (List ℚ × List ℚ)) : List (List ℚ × List ℚ) :=
  rows.filter (fun r => decide (anchorState r.1 = 1))

/-- Core of _smooth_l1 on the flattened (B*N) list of rows: select positive
anchors, sum the element-wise piecewise loss, divide by the positive-anchor
count floored at 1 (source lines 126-146). -/
def smooth_l1_rows (sigma_squared : ℚ) (rows_t rows_p : List (List ℚ)) : ℚ :=
  let selected := selectPositive (rows_t.zip rows_p)
  let total := (selected.map (fun r => rowLoss sigma_squared r.2 (stripState r.1))).sum
  let normalizer : ℚ := ((max 1 (rows_t.countP (fun t => decide (anchorState t = 1))) : ℕ) : ℚ)
  total / normalizer

/-- The functor returned by smooth_l1(sigma): precomputes sigma^2 and
computes the loss of y_pred w.r.t. y_true (source lines 101-148). -/
def smooth_l1 (sigma : ℚ) (y_true y_pred : TensorQ) : ℚ :=
  smooth_l1_rows (sigma ^ 2) y_true.flatten y_pred.flatten

/-! Spec-side definition of the smooth-L1 loss, written from the words of
claim C2 / spec section 4.2, for the refinement theorem. -/

/-- Piecewise value from the claim: 0.5 * sigma^2 * diff^2 if
abs (pred - target) < 1/sigma^2, else abs (pred - target) - 0.5/sigma^2. -/
def specPiece (sigma_squared p t : ℚ) : ℚ :=
  if |p - t| < 1 / sigma_squared then 0.5 * sigma_squared * |p - t| ^ 2
  else |p - t| - 0.5 / sigma_squared

/-- The smooth-L1 loss as the claim states it: the sum over the positions
with anchorState == 1 and the box channels of the piecewise value, divided
by max(1, count of positions with anchorState == 1); positions with state
0 or -1 contribute nothing. -/
def smooth_l1_spec (sigma : ℚ) (y_true y_pred : TensorQ) : ℚ :=
  let rows := y_true.flatten.zip y_pred.flatten
  let total := (rows.map (fun r =>
      if anchorState r.1 = 1 then
        ((r.2.zip (stripState r.1)).map (fun e => specPiece (sigma ^ 2) e.1 e.2)).sum
      else 0)).sum
  total / ((max 1 (y_true.flatten.countP (fun t => decide (anchorState t = 1))) : ℕ) : ℚ)

/-! ### Helper lemmas for the smooth-L1 theorems -/

theorem sum_filter_map_eq {α β : Type _} [AddCommMonoid β] (p : α → Bool) (f : α → β) :
    ∀ l : List α, ((l.filter p).map f).sum = (l.map (fun x => if p x then f x else 0)).sum := by
  intro l
  induction l with
  | nil => simp
  | cons a t ih =>
    by_cases h : p a = true
    · simp [List.filter_cons, h, ih]
    · simp [List.filter_cons, h, ih]

theorem smoothL1Elem_eq_specPiece (s a b : ℚ) :
    smoothL1Elem s (a - b) = specPiece s a b := by
  simp [smoothL1Elem, specPiece, quadBranch, linBranch]

theorem anchorState_concat (l : List ℚ) (x : ℚ) : anchorState (l ++ [x]) = x := by
  simp [anchorState, List.getLastD_eq_getLast?, List.getLast?_concat]

theorem stripState_concat (l : List ℚ) (x : ℚ) : stripState (l ++ [x]) = l := by
  simp [stripState]

theorem rowLoss_nil_left (s : ℚ) (y : List ℚ) : rowLoss s [] y = 0 := by
  simp [rowLoss]

theorem rowLoss_nil_right (s : ℚ) (x : List ℚ) : rowLoss s x [] = 0 := by
  simp [rowLoss]

theorem rowLoss_cons (s a b : ℚ) (t u : List ℚ) :
    rowLoss s (a :: t) (b :: u) = smoothL1Elem s (a - b) + rowLoss s t u := by
  simp [rowLoss]

theorem smoothL1Elem_sub_comm (s a b : ℚ) :
    smoothL1Elem s (a - b) = smoothL1Elem s (b - a) := by
  simp [smoothL1Elem, abs_sub_comm]

theorem rowLoss_comm (s : ℚ) : ∀ x y : List ℚ, rowLoss s x y = rowLoss s y x := by
  intro x
  induction x with
  | nil => intro y; cases y <;> simp [rowLoss]
  | cons a t ih =>
    intro y
    cases y with
    | nil => simp [rowLoss]
    | cons b u => rw [rowLoss_cons, rowLoss_cons, smoothL1Elem_sub_comm, ih u]

theorem countP_swap :
    ∀ t p : List (List ℚ), t.length = p.length →
      (List.zipWith (fun a b => b ++ [anchorState a]) t p).countP
          (fun r => decide (anchorState r = 1)) =
        t.countP (fun r => decide (anchorState r = 1)) := by
  intro t
  induction t with
  | nil => intro p h; simp
  | cons a t ih =>
    intro p h
    cases p with
    | nil => simp at h
    | cons b u =>
      simp only [List.zipWith_cons_cons, List.countP_cons, anchorState_concat]
      rw [ih u (by simpa using h)]

theorem swap_total (s : ℚ) :
    ∀ t p : List (List ℚ), t.length = p.length →
      ((selectPositive ((List.zipWith (fun a b => b ++ [anchorState a]) t p).zip
            (t.map stripState))).map (fun r => rowLoss s r.2 (stripState r.1))).sum =
        ((selectPositive (t.zip p)).map (fun r => rowLoss s r.2 (stripState r.1))).sum := by
  intro t
  induction t with
  | nil => intro p h; simp [selectPositive]
  | cons a t ih =>
    intro p h
    cases p with
    | nil => simp at h
    | cons b u =>
      have htail := ih u (by simpa using h)
      simp only [selectPositive, List.zipWith_cons_cons, List.map_cons, List.zip_cons_cons,
        List.filter_cons, anchorState_concat] at htail ⊢
      by_cases hb : anchorState a = 1
      · rw [if_pos (by simp [hb]), if_pos (by simp [hb])]
        simp only [List.map_cons, List.sum_cons, stripState_concat]
        rw [htail, rowLoss_comm]
      · rw [if_neg (by simp [hb]), if_neg (by simp [hb])]
        exact htail

theorem selectPositive_congr :
    ∀ t p q : List (List ℚ), p.length = q.length →
      (∀ x ∈ t.zip (p.zip q), anchorState x.1 = 1 → x.2.1 = x.2.2) →
      selectPositive (t.zip p) = selectPositive (t.zip q) := by
  intro t
  induction t with
  | nil => intro p q h hx; simp [selectPositive]
  | cons a t ih =>
    intro p q h hx
    cases p with
    | nil =>
      cases q with
      | nil => rfl
      | cons c q => simp at h
    | cons b p =>
      cases q with
      | nil => simp at h
      | cons c q =>
        have htail := ih p q (by simpa using h)
          (fun x hmem hs => hx x (List.mem_cons_of_mem _ (by simpa using hmem)) hs)
        simp only [selectPositive, List.zip_cons_cons, List.filter_cons] at htail ⊢
        by_cases hs : anchorState a = 1
        · have hbc : b = c := hx (a, b, c) (List.mem_cons_self _ _) hs
          rw [if_pos (by simp [hs]), if_pos (by simp [hs]), hbc, htail]
        · rw [if_neg (by simp [hs]), if_neg (by simp [hs]), htail]

/-! ### Claim theorems for the smooth-L1 loss -/

/-- C2: for every target tensor and prediction tensor, the loss returned by
the functor from smooth_l1(sigma) equals the sum, over the positions with
anchorState == 1 and the box channels, of the piecewise value
(0.5 * sigma^2 * diff^2 if the absolute difference is below 1/sigma^2, else
the absolute difference minus 0.5/sigma^2), divided by
max(1, count of positions with anchorState == 1); positions with state 0 or
-1 contribute nothing. -/
theorem C2_smooth_l1_refinement (sigma : ℚ) (y_true y_pred : TensorQ) :
    smooth_l1 sigma y_true y_pred = smooth_l1_spec sigma y_true y_pred := by
  unfold smooth_l1 smooth_l1_spec smooth_l1_rows selectPositive
  dsimp only
  congr 1
  rw [sum_filter_map_eq]
  refine congrArg List.sum (congrArg (fun f => List.map f _) (funext fun r => ?_))
  simp only [decide_eq_true_eq, rowLoss, smoothL1Elem_eq_specPiece]

/-- C5: for a fixed sigma > 0, the piecewise smooth-L1 element function is
continuous at the branch boundary: at d = 1/sigma^2 the quadratic branch
equals the linear branch, both equal 0.5/sigma^2, and the element function
takes exactly that common value there. -/
theorem C5_branch_continuity (sigma : ℚ) (h : 0 < sigma) :
    quadBranch (sigma ^ 2) (1 / sigma ^ 2) = linBranch (sigma ^ 2) (1 / sigma ^ 2) ∧
    quadBranch (sigma ^ 2) (1 / sigma ^ 2) = 0.5 / sigma ^ 2 ∧
    smoothL1Elem (sigma ^ 2) (1 / sigma ^ 2) = quadBranch (sigma ^ 2) (1 / sigma ^ 2) := by
  have hs : (sigma : ℚ) ^ 2 ≠ 0 := pow_ne_zero 2 (ne_of_gt h)
  have hq : quadBranch (sigma ^ 2) (1 / sigma ^ 2) = 0.5 / sigma ^ 2 := by
    unfold quadBranch
    field_simp
    ring
  have hl : linBranch (sigma ^ 2) (1 / sigma ^ 2) = 0.5 / sigma ^ 2 := by
    unfold linBranch
    field_simp
    ring
  have hnonneg : (0 : ℚ) ≤ 1 / sigma ^ 2 := by positivity
  refine ⟨hq.trans hl.symm, hq, ?_⟩
  unfold smoothL1Elem
  rw [abs_of_nonneg hnonneg, if_neg (lt_irrefl _), hq.trans hl.symm]

theorem C5_branch_continuity_witness :
    (0 : ℚ) < 3 ∧ quadBranch (3 ^ 2) (1 / 3 ^ 2) = linBranch (3 ^ 2) (1 / 3 ^ 2) :=
  ⟨by norm_num, (C5_branch_continuity 3 (by norm_num)).1⟩

/-- C7: for sigma = 3 (sigma^2 = 9, threshold 1/9), on target [[0,0,0,0,1]]
and prediction [[0.05,0,0,0]] the smooth-L1 loss returns 0.01125, and on the
same target with prediction [[1.0,0,0,0]] it returns 1.0 - 0.5/9. -/
theorem C7_smooth_l1_concrete :
    smooth_l1 3 [[[0, 0, 0, 0, 1]]] [[[0.05, 0, 0, 0]]] = 0.01125 ∧
    smooth_l1 3 [[[0, 0, 0, 0, 1]]] [[[1.0, 0, 0, 0]]] = 1.0 - 0.5 / 9 := by
  constructor <;>
    norm_num [smooth_l1, smooth_l1_rows, selectPositive, anchorState, stripState, rowLoss,
      smoothL1Elem, quadBranch, linBranch, List.getLastD, abs_div]

/-- C8 counterexample: literally swapping the two tensor arguments of the
smooth-L1 loss changes the value, because the anchor-state channel travels
with the first argument: on target [[0,0,0,0,1]] and prediction [[1,0,0,0]]
the loss is 1 - 1/18, but with the arguments exchanged the state channel
reads 0, nothing is selected, and the loss is 0. -/
theorem C8_swap_counterexample :
    smooth_l1 3 [[[0, 0, 0, 0, 1]]] [[[1, 0, 0, 0]]] ≠
      smooth_l1 3 [[[1, 0, 0, 0]]] [[[0, 0, 0, 0, 1]]] := by
  norm_num [smooth_l1, smooth_l1_rows, selectPositive, anchorState, stripState, rowLoss,
    smoothL1Elem, quadBranch, linBranch, List.getLastD, abs_div]

/-- C8 (amended): the smooth-L1 loss is symmetric in prediction and
regression target once the anchor-state channel is kept in place: appending
the states to the prediction rows to form the new target, and using the old
box-target channels as the new prediction, leaves the loss unchanged, for
position-aligned tensors. -/
theorem C8_swap_pred_target (sigma : ℚ) (y_true y_pred : TensorQ)
    (h : y_true.flatten.length = y_pred.flatten.length) :
    smooth_l1 sigma y_true y_pred =
      smooth_l1 sigma
        [List.zipWith (fun t p => p ++ [anchorState t]) y_true.flatten y_pred.flatten]
        [y_true.flatten.map stripState] := by
  unfold smooth_l1
  have hflat :
      ([List.zipWith (fun t p => p ++ [anchorState t]) y_true.flatten y_pred.flatten] :
        TensorQ).flatten =
        List.zipWith (fun t p => p ++ [anchorState t]) y_true.flatten y_pred.flatten := by
    simp
  have hflat2 : ([y_true.flatten.map stripState] : TensorQ).flatten =
      y_true.flatten.map stripState := by
    simp
  rw [hflat, hflat2]
  unfold smooth_l1_rows
  dsimp only
  rw [countP_swap _ _ h, swap_total (sigma ^ 2) _ _ h]

theorem C8_swap_pred_target_witness :
    ([[[0, 0, 0, 0, 1]]] : TensorQ).flatten.length =
        ([[[0.05, 0, 0, 0]]] : TensorQ).flatten.length ∧
    smooth_l1 3 [[[0, 0, 0, 0, 1]]] [[[0.05, 0, 0, 0]]] =
      smooth_l1 3
        [List.zipWith (fun t p => p ++ [anchorState t])
          ([[[0, 0, 0, 0, 1]]] : TensorQ).flatten ([[[0.05, 0, 0, 0]]] : TensorQ).flatten]
        [([[[0, 0, 0, 0, 1]]] : TensorQ).flatten.map stripState] :=
  ⟨rfl, C8_swap_pred_target 3 [[[0, 0, 0, 0, 1]]] [[[0.05, 0, 0, 0]]] rfl⟩

/-- C10: the smooth-L1 loss does not depend on predictions at non-positive
anchors: for every target tensor and every two position-aligned prediction
tensors that agree at all positions where anchorState == 1, the losses are
equal. -/
theorem C10_pred_independence (sigma : ℚ) (y_true y_pred1 y_pred2 : TensorQ)
    (hlen : y_pred1.flatten.length = y_pred2.flatten.length)
    (hagree : ∀ x ∈ y_true.flatten.zip (y_pred1.flatten.zip y_pred2.flatten),
      anchorState x.1 = 1 → x.2.1 = x.2.2) :
    smooth_l1 sigma y_true y_pred1 = smooth_l1 sigma y_true y_pred2 := by
  unfold smooth_l1 smooth_l1_rows
  dsimp only
  rw [selectPositive_congr _ _ _ hlen hagree]

theorem C10_pred_independence_witness :
    ([[[1, 2, 3, 4], [9, 9, 9, 9]]] : TensorQ).flatten.length =
        ([[[1, 2, 3, 4], [0, 0, 0, 0]]] : TensorQ).flatten.length ∧
    smooth_l1 3 [[[0, 0, 0, 0, 1], [0, 0, 0, 0, 0]]] [[[1, 2, 3, 4], [9, 9, 9, 9]]] =
      smooth_l1 3 [[[0, 0, 0, 0, 1], [0, 0, 0, 0, 0]]] [[[1, 2, 3, 4], [0, 0, 0, 0]]] :=
  ⟨rfl,
    C10_pred_independence 3 _ _ _ rfl (by
      intro x hx hs
      fin_cases hx
      · rfl
      · exact absurd hs (by norm_num [anchorState, List.getLastD]))⟩

/-! ### Focal-center classification loss (real embedding) -/

/-- A batched rank-3 tensor over the reals. -/
abbrev TensorR := List (List (List ℝ))

noncomputable section

/-- Elementwise sigmoid activation applied to the raw predictions
(source line 61). -/
def sigmoid (x : ℝ) : ℝ := 1 / (1 + Real.exp (-x))

/-- keras.backend.binary_crossentropy(target, output) on probabilities:
the standard cross entropy of a Bernoulli target against a probability. -/
def binary_crossentropy (t p : ℝ) : ℝ :=
  -(t * Real.log p + (1 - t) * Real.log (1 - p))

/-- Last channel of a real row: y_true[:, :, -1], the anchor state. -/
def anchorStateR (row : List ℝ) : ℝ := row.getLastD 0

/-- tf.to_int32 on a label value: cast to integer, truncating toward zero
(source line 88). -/
def truncToInt (x : ℝ) : ℤ := if 0 ≤ x then ⌊x⌋ else ⌈x⌉

/-- tf.gather on the rank-1 center table at one index; reads outside the
table default to 0 (the table is all zeros, so any read yields 0). -/
def gatherCenter (center : List ℝ) (i : ℤ) : ℝ := center.getD i.toNat 0

/-- Per-element focal weight of source lines 74-77:
alpha_factor * focal_weight ** gamma, where alpha_factor is alpha for
label == 1 and 1 - alpha otherwise, and the base is 1 - prob for
label == 1 and prob otherwise.  The exponent is a real power. -/
def focal_weight_elem (alpha gamma label prob : ℝ) : ℝ :=
  (if label = 1 then alpha else 1 - alpha) *
    (if label = 1 then 1 - prob else prob) ^ gamma

/-- The focal classification loss of one gathered anchor row, mirroring
the elementwise matrix operations of source lines 61-79: sigmoid the
predictions, build the alpha factor and the focal base with elementwise
where, raise to gamma, multiply with the binary cross entropy, sum. -/
def cls_loss_row (alpha gamma : ℝ) (labels preds : List ℝ) : ℝ :=
  let classification := preds.map sigmoid
  let alpha_factor := labels.map (fun l => if l = 1 then alpha else 1 - alpha)
  let focal_base := (labels.zip classification).map (fun e => if e.1 = 1 then 1 - e.2 else e.2)
  let focal_weight := (alpha_factor.zip focal_base).map (fun e => e.1 * e.2 ^ gamma)
  ((focal_weight.zip ((labels.zip classification).map
      (fun e => binary_crossentropy e.1 e.2))).map (fun e => e.1 * e.2)).sum

/-- Modelled from the spec: the repository backend module (not under src/)
wraps tf.where / tf.gather_nd; per the spec this selects the (batch, anchor)
positions whose state is not -1 and gathers the corresponding rows of
labels, classification and feature, aligned by position (source
lines 66-71). -/
def focalSelect (y_true y_pred : TensorR) : List (List ℝ × List ℝ) :=
  (y_true.flatten.zip y_pred.flatten).filter (fun r => decide (anchorStateR r.1 ≠ -1))

/-- One row of centers_batch - feature (source lines 89 and 97): gather the
center entries at the truncated labels and subtract the raw features. -/
def center_diff_row (center : List ℝ) (labels feature : List ℝ) : List ℝ :=
  ((labels.map (fun l => gatherCenter center (truncToInt l))).zip feature).map
    (fun e => e.1 - e.2)

/-- All entries of the diff matrix over the selected rows. -/
def centerDiffs (center : List ℝ) (selected : List (List ℝ × List ℝ)) : List ℝ :=
  (selected.map (fun r => center_diff_row center r.1.dropLast r.2)).flatten

/-- The center term: tf.reduce_mean(k.square(diff)) * center_alpha
(source line 99); the mean is the sum of the squares divided by the number
of entries. -/
def centerTerm (center_alpha : ℝ) (center : List ℝ) (selected : List (List ℝ × List ℝ)) : ℝ :=
  (((centerDiffs center selected).map (fun d => d ^ 2)).sum /
      (((centerDiffs center selected).length : ℕ) : ℝ)) * center_alpha

/-- _focal (source lines 44-101): select the non-ignore rows, compute the
focal classification loss and the center term, and divide their sum by
max(1, number of positions with anchor state 1). -/
def _focal (alpha gamma center_alpha : ℝ) (num_classes : ℕ) (center : List ℝ)
    (y_true y_pred : TensorR) : ℝ :=
  let selected := focalSelect y_true y_pred
  let cls_loss := (selected.map (fun r => cls_loss_row alpha gamma r.1.dropLast r.2)).sum
  let normalizer : ℝ :=
    max 1 ((y_true.flatten.countP (fun t => decide (anchorStateR t = 1)) : ℕ) : ℝ)
  (centerTerm center_alpha center selected + cls_loss) / normalizer

/-- The state owned by the closure returned by focal(...): the
hyperparameters and the center table. -/
structure FocalFunctor where
  alpha : ℝ
  gamma : ℝ
  center_alpha : ℝ
  num_classes : ℕ
  center : List ℝ

/-- focal(alpha, gamma, center_alpha, num_classes) (source lines 25-41):
binds the hyperparameters and a freshly zero-initialized center table. -/
def focal (alpha gamma center_alpha : ℝ) (num_classes : ℕ) : FocalFunctor :=
  ⟨alpha, gamma, center_alpha, num_classes, List.replicate num_classes 0⟩

/-- The call of the returned closure: computes _focal with the captured
state.  No operation in _focal writes the center table (the scatter_sub
update exists only in comments in the source), so the state after the call
is the incoming state. -/
def center_loss (f : FocalFunctor) (y_true y_pred : TensorR) : ℝ × FocalFunctor :=
  (_focal f.alpha f.gamma f.center_alpha f.num_classes f.center y_true y_pred, f)

/-! Spec-side definition of the focal-center loss, written from the words of
claim C1 / spec section 4.1, for the refinement theorem. -/

/-- alphaFactor = alpha if label==1 else 1-alpha (claim C1). -/
def alphaFactorSpec (alpha label : ℝ) : ℝ := if label = 1 then alpha else 1 - alpha

/-- focalWeight = (1-prob) if label==1 else prob (claim C1). -/
def focalWeightSpec (label prob : ℝ) : ℝ := if label = 1 then 1 - prob else prob

/-- Per-position per-class summand of claim C1:
alphaFactor * focalWeight^gamma * binaryCrossEntropy(label, sigmoid(pred)). -/
def classLossSpec (alpha gamma label pred : ℝ) : ℝ :=
  alphaFactorSpec alpha label * focalWeightSpec label (sigmoid pred) ^ gamma *
    binary_crossentropy label (sigmoid pred)

/-- Center loss of spec section 4.1 step 7: gather the center rows at the
truncated labels, diff against the features, centerAlpha times the mean of
the squares over the selected set. -/
def centerLossSpec (center_alpha : ℝ) (center : List ℝ)
    (selected : List (List ℝ × List ℝ)) : ℝ :=
  let diffs := (selected.map (fun r =>
      ((r.1.dropLast.map (fun l => gatherCenter center (truncToInt l))).zip r.2).map
        (fun e => e.1 - e.2))).flatten
  center_alpha * ((diffs.map (fun d => d ^ 2)).sum / ((diffs.length : ℕ) : ℝ))

/-- The focal-center loss as claim C1 states it: (centerLoss + sum over all
positions with anchorState != -1 and all classes of the per-element class
loss) divided by max(1, count of positions with anchorState == 1). -/
def focal_spec (alpha gamma center_alpha : ℝ) (center : List ℝ)
    (y_true y_pred : TensorR) : ℝ :=
  let rows := y_true.flatten.zip y_pred.flatten
  let clsSum := (rows.map (fun r =>
      if anchorStateR r.1 = -1 then 0
      else ((r.1.dropLast.zip r.2).map (fun e => classLossSpec alpha gamma e.1 e.2)).sum)).sum
  let selected := rows.filter (fun r => decide (anchorStateR r.1 ≠ -1))
  (centerLossSpec center_alpha center selected + clsSum) /
    max 1 ((y_true.flatten.countP (fun t => decide (anchorStateR t = 1)) : ℕ) : ℝ)

end

/-! ### Helper lemmas for the focal-center theorems -/

theorem cls_loss_row_nil_left (alpha gamma : ℝ) (ps : List ℝ) :
    cls_loss_row alpha gamma [] ps = 0 := by
  simp [cls_loss_row]

theorem cls_loss_row_nil_right (alpha gamma : ℝ) (ls : List ℝ) :
    cls_loss_row alpha gamma ls [] = 0 := by
  simp [cls_loss_row]

theorem cls_loss_row_cons (alpha gamma l p : ℝ) (ls ps : List ℝ) :
    cls_loss_row alpha gamma (l :: ls) (p :: ps) =
      (if l = 1 then alpha else 1 - alpha) *
          (if l = 1 then 1 - sigmoid p else sigmoid p) ^ gamma *
          binary_crossentropy l (sigmoid p) +
        cls_loss_row alpha gamma ls ps := by
  simp [cls_loss_row]

theorem cls_loss_row_eq_spec (alpha gamma : ℝ) :
    ∀ ls ps : List ℝ,
      cls_loss_row alpha gamma ls ps =
        ((ls.zip ps).map (fun e => classLossSpec alpha gamma e.1 e.2)).sum := by
  intro ls
  induction ls with
  | nil => intro ps; simp [cls_loss_row]
  | cons l ls ih =>
    intro ps
    cases ps with
    | nil => simp [cls_loss_row]
    | cons p ps =>
      rw [cls_loss_row_cons, ih]
      simp [classLossSpec, alphaFactorSpec, focalWeightSpec]

theorem centerTerm_eq_spec (center_alpha : ℝ) (center : List ℝ)
    (selected : List (List ℝ × List ℝ)) :
    centerTerm center_alpha center selected = centerLossSpec center_alpha center selected := by
  unfold centerTerm centerLossSpec centerDiffs center_diff_row
  dsimp only
  rw [mul_comm]

/-! ### Claim theorems for the focal-center loss -/

/-- C1: for every target and prediction tensor, the focal-center loss
returned by the functor from focal(alpha, gamma, centerAlpha, numClasses)
equals (centerLoss + sum over all positions with anchorState != -1 and all
classes of alphaFactor * focalWeight^gamma * binaryCrossEntropy(label,
sigmoid(pred))) divided by max(1, count of positions with
anchorState == 1). -/
theorem C1_focal_refinement (alpha gamma center_alpha : ℝ) (num_classes : ℕ)
    (y_true y_pred : TensorR) :
    (center_loss (focal alpha gamma center_alpha num_classes) y_true y_pred).1 =
      focal_spec alpha gamma center_alpha (List.replicate num_classes 0) y_true y_pred := by
  unfold center_loss focal _focal focal_spec focalSelect
  dsimp only
  rw [centerTerm_eq_spec]
  congr 1
  congr 1
  rw [sum_filter_map_eq]
  refine congrArg List.sum (congrArg (fun f => List.map f _) (funext fun r => ?_))
  rw [cls_loss_row_eq_spec]
  by_cases hP : anchorStateR r.1 = -1
  · simp [hP]
  · simp [hP]

/-- C9: both loss functions are deterministic and mutate no state: a call
of the focal-center closure returns the state it received, a second call
from the returned state yields the same loss, and the smooth-L1 functor is
a pure function of its arguments. -/
theorem C9_deterministic_no_mutation (f : FocalFunctor) (y_true y_pred : TensorR)
    (sigma : ℚ) (t p : TensorQ) :
    (center_loss f y_true y_pred).2 = f ∧
    (center_loss ((center_loss f y_true y_pred).2) y_true y_pred).1 =
      (center_loss f y_true y_pred).1 ∧
    smooth_l1 sigma t p = smooth_l1 sigma t p :=
  ⟨rfl, rfl, rfl⟩

/-- C6: for fixed alpha in (0,1) and gamma >= 0, the per-element focal
weight is monotonically non-decreasing in (1-prob) for label == 1 and in
prob for label != 1. -/
theorem C6_focal_weight_monotone (alpha gamma : ℝ) (ha0 : 0 < alpha) (ha1 : alpha < 1)
    (hg : 0 ≤ gamma) :
    (∀ p q : ℝ, 0 ≤ 1 - p → 1 - p ≤ 1 - q →
      focal_weight_elem alpha gamma 1 p ≤ focal_weight_elem alpha gamma 1 q) ∧
    (∀ label p q : ℝ, label ≠ 1 → 0 ≤ p → p ≤ q →
      focal_weight_elem alpha gamma label p ≤ focal_weight_elem alpha gamma label q) := by
  constructor
  · intro p q hp hpq
    simp only [focal_weight_elem, if_pos rfl]
    exact mul_le_mul_of_nonneg_left (Real.rpow_le_rpow hp hpq hg) ha0.le
  · intro label p q hl hp hpq
    simp only [focal_weight_elem, if_neg hl]
    exact mul_le_mul_of_nonneg_left (Real.rpow_le_rpow hp hpq hg) (by linarith)

theorem C6_focal_weight_monotone_witness :
    (0 : ℝ) < 1 / 4 ∧ (1 : ℝ) / 4 < 1 ∧ (0 : ℝ) ≤ 2 ∧
    focal_weight_elem (1 / 4) 2 1 (3 / 4) ≤ focal_weight_elem (1 / 4) 2 1 (1 / 4) ∧
    focal_weight_elem (1 / 4) 2 0 (1 / 4) ≤ focal_weight_elem (1 / 4) 2 0 (1 / 2) :=
  ⟨by norm_num, by norm_num, by norm_num,
    (C6_focal_weight_monotone (1 / 4) 2 (by norm_num) (by norm_num) (by norm_num)).1
      (3 / 4) (1 / 4) (by norm_num) (by norm_num),
    (C6_focal_weight_monotone (1 / 4) 2 (by norm_num) (by norm_num) (by norm_num)).2
      0 (1 / 4) (1 / 2) (by norm_num) (by norm_num) (by norm_num)⟩

/-- C3: degenerate batches.  For the classification loss with every anchor
state -1 the selection is empty: the class sum is an empty sum and the
normalizer floors to 1, but the center term is a mean over zero entries, a
division of 0 by 0 (NaN in the floating-point code; 0 under the total real
division of this embedding).  For the regression loss with every state 0 or
-1 the loss is exactly 0. -/
theorem C3_degenerate_batches :
    focalSelect [[[0, 0, -1]]] [[[0, 0]]] = [] ∧
    _focal (1 / 4) 2 (3 / 100) 9 (focal (1 / 4) 2 (3 / 100) 9).center
        [[[0, 0, -1]]] [[[0, 0]]] = ((0 : ℝ) / 0) * (3 / 100) ∧
    smooth_l1 3 [[[0, 0, 0, 0, 0], [0, 0, 0, 0, -1]]] [[[1, 2, 3, 4], [5, 6, 7, 8]]] = 0 := by
  have hsel : focalSelect [[[0, 0, -1]]] [[[0, 0]]] = ([] : List (List ℝ × List ℝ)) := by
    norm_num [focalSelect, anchorStateR, List.getLastD, List.filter_cons]
  refine ⟨hsel, ?_, ?_⟩
  · unfold _focal
    dsimp only
    rw [hsel]
    have hcount : ([[[0, 0, -1]]] : TensorR).flatten.countP
        (fun t => decide (anchorStateR t = 1)) = 0 := by
      norm_num [anchorStateR, List.getLastD, List.countP_cons, List.countP_nil]
    rw [hcount]
    norm_num [centerTerm, centerDiffs]
  · norm_num [smooth_l1, smooth_l1_rows, selectPositive, anchorState, stripState, rowLoss,
      smoothL1Elem, quadBranch, linBranch, List.getLastD, abs_div]

theorem getD_replicate_zero : ∀ n k : ℕ, (List.replicate n (0 : ℝ)).getD k 0 = 0 := by
  intro n
  induction n with
  | zero => intro k; simp
  | succ n ih =>
    intro k
    cases k with
    | zero => simp [List.replicate_succ]
    | succ k =>
      rw [List.replicate_succ]
      exact ih k

theorem gatherCenter_zero (n : ℕ) (i : ℤ) : gatherCenter (List.replicate n 0) i = 0 := by
  simp [gatherCenter, getD_replicate_zero]

theorem zip_replicate_zero_sub :
    ∀ (k : ℕ) (f : List ℝ),
      ((List.replicate k (0 : ℝ)).zip f).map (fun e => e.1 - e.2) =
        (f.take k).map (fun x => 0 - x) := by
  intro k
  induction k with
  | zero => intro f; simp
  | succ k ih =>
    intro f
    cases f with
    | nil => simp
    | cons a f => simp [List.replicate_succ, ih]

theorem center_diff_row_zero (n : ℕ) (labels feature : List ℝ) :
    center_diff_row (List.replicate n 0) labels feature =
      (feature.take labels.length).map (fun x => 0 - x) := by
  unfold center_diff_row
  have hmap : labels.map (fun l => gatherCenter (List.replicate n 0) (truncToInt l)) =
      List.replicate labels.length 0 := by
    induction labels with
    | nil => simp
    | cons l ls ih => simp [gatherCenter_zero, List.replicate_succ, ih]
  rw [hmap, zip_replicate_zero_sub]

theorem centerDiffs_zero_of_shape (n : ℕ) :
    ∀ selected : List (List ℝ × List ℝ),
      (∀ r ∈ selected, r.1.length = r.2.length + 1) →
      centerDiffs (List.replicate n 0) selected =
        ((selected.map Prod.snd).flatten).map (fun x => 0 - x) := by
  intro selected
  induction selected with
  | nil => intro h; simp [centerDiffs]
  | cons r rs ih =>
    intro h
    have hr := h r (List.mem_cons_self _ _)
    have hlen : r.1.dropLast.length = r.2.length := by
      simp [List.length_dropLast, hr]
    have htail := ih (fun x hx => h x (List.mem_cons_of_mem _ hx))
    simp only [centerDiffs, List.map_cons, List.flatten_cons] at htail ⊢
    rw [center_diff_row_zero, hlen, List.take_length, htail, List.map_append]

theorem centerDiffs_zero_congr (n : ℕ) (sel1 sel2 : List (List ℝ × List ℝ))
    (h : sel2.map (fun r => (r.1.length, r.2)) = sel1.map (fun r => (r.1.length, r.2))) :
    centerDiffs (List.replicate n 0) sel2 = centerDiffs (List.replicate n 0) sel1 := by
  unfold centerDiffs
  congr 1
  have h2 : ∀ sel : List (List ℝ × List ℝ),
      sel.map (fun r => center_diff_row (List.replicate n 0) r.1.dropLast r.2) =
        (sel.map (fun r => (r.1.length, r.2))).map
          (fun q => (q.2.take (q.1 - 1)).map (fun x => 0 - x)) := by
    intro sel
    rw [List.map_map]
    refine congrArg (fun f => List.map f sel) (funext fun r => ?_)
    simp [Function.comp, center_diff_row_zero, List.length_dropLast]
  rw [h2, h2, h]

theorem focalSelect_snd_congr :
    ∀ t2 t1 p : List (List ℝ),
      t2.map anchorStateR = t1.map anchorStateR →
      t2.map List.length = t1.map List.length →
      ((t2.zip p).filter (fun r => decide (anchorStateR r.1 ≠ -1))).map
          (fun r => (r.1.length, r.2)) =
        ((t1.zip p).filter (fun r => decide (anchorStateR r.1 ≠ -1))).map
          (fun r => (r.1.length, r.2)) := by
  intro t2
  induction t2 with
  | nil =>
    intro t1 p hs hl
    cases t1 with
    | nil => rfl
    | cons b t1 => simp at hs
  | cons a t2 ih =>
    intro t1 p hs hl
    cases t1 with
    | nil => simp at hs
    | cons b t1 =>
      cases p with
      | nil => simp
      | cons c p =>
        simp only [List.map_cons, List.cons.injEq] at hs hl
        simp only [List.zip_cons_cons, List.filter_cons]
        by_cases hstate : anchorStateR a = -1
        · have hb : anchorStateR b = -1 := hs.1 ▸ hstate
          rw [if_neg (by simp [hstate]), if_neg (by simp [hb])]
          exact ih t1 p hs.2 hl.2
        · have hb : ¬anchorStateR b = -1 := hs.1 ▸ hstate
          rw [if_pos (by simp [hstate]), if_pos (by simp [hb])]
          simp only [List.map_cons]
          rw [ih t1 p hs.2 hl.2, hl.1]

/-- C4: the center table is zero-initialized at construction and never
written, so for every input whose selection is non-empty the center term
equals centerAlpha times the mean of the squares of the selected raw
prediction values, and the term is independent of the label values used as
gather indices (for targets with the same anchor states and row lengths). -/
theorem C4_center_term (alpha gamma center_alpha : ℝ) (num_classes : ℕ)
    (y_true y_pred : TensorR)
    (hshape : ∀ r ∈ focalSelect y_true y_pred, r.1.length = r.2.length + 1)
    (hne : ((focalSelect y_true y_pred).map Prod.snd).flatten ≠ []) :
    centerTerm center_alpha (focal alpha gamma center_alpha num_classes).center
        (focalSelect y_true y_pred) =
      center_alpha *
        ((((focalSelect y_true y_pred).map Prod.snd).flatten.map (fun x => x ^ 2)).sum /
          ((((focalSelect y_true y_pred).map Prod.snd).flatten.length : ℕ) : ℝ)) ∧
    ∀ y_true2 : TensorR,
      y_true2.flatten.map anchorStateR = y_true.flatten.map anchorStateR →
      y_true2.flatten.map List.length = y_true.flatten.map List.length →
      centerTerm center_alpha (focal alpha gamma center_alpha num_classes).center
          (focalSelect y_true2 y_pred) =
        centerTerm center_alpha (focal alpha gamma center_alpha num_classes).center
          (focalSelect y_true y_pred) := by
  have hcenter : (focal alpha gamma center_alpha num_classes).center =
      List.replicate num_classes 0 := rfl
  constructor
  · unfold centerTerm
    rw [hcenter, centerDiffs_zero_of_shape num_classes _ hshape]
    rw [List.map_map]
    have hsq : ((fun d => d ^ 2) ∘ fun x => (0 : ℝ) - x) = fun x => x ^ 2 := by
      funext x
      simp [Function.comp]
    rw [hsq, List.length_map, mul_comm]
  · intro y_true2 hs hl
    unfold centerTerm
    rw [hcenter]
    rw [centerDiffs_zero_congr num_classes (focalSelect y_true y_pred)
      (focalSelect y_true2 y_pred)
      (focalSelect_snd_congr y_true2.flatten y_true.flatten y_pred.flatten hs hl)]

theorem C4_center_term_witness :
    (∀ r ∈ focalSelect [[[1, 0, 1]]] [[[2, 3]]], r.1.length = r.2.length + 1) ∧
    ((focalSelect [[[1, 0, 1]]] [[[2, 3]]]).map Prod.snd).flatten ≠ [] ∧
    centerTerm (3 / 100) (focal (1 / 4) 2 (3 / 100) 9).center
        (focalSelect [[[1, 0, 1]]] [[[2, 3]]]) =
      (3 / 100) *
        ((((focalSelect [[[1, 0, 1]]] [[[2, 3]]]).map Prod.snd).flatten.map
            (fun x => x ^ 2)).sum /
          ((((focalSelect [[[1, 0, 1]]] [[[2, 3]]]).map Prod.snd).flatten.length : ℕ) : ℝ)) := by
  have hsel : focalSelect [[[1, 0, 1]]] [[[2, 3]]] =
      [([1, 0, 1], [2, 3])] := by
    norm_num [focalSelect, anchorStateR, List.getLastD, List.filter_cons]
  have hshape : ∀ r ∈ focalSelect [[[1, 0, 1]]] [[[2, 3]]], r.1.length = r.2.length + 1 := by
    intro r hr
    rw [hsel] at hr
    simp only [List.mem_singleton] at hr
    subst hr
    rfl
  have hne : ((focalSelect [[[1, 0, 1]]] [[[2, 3]]]).map Prod.snd).flatten ≠ [] := by
    rw [hsel]
    simp
  exact ⟨hshape, hne,
    (C4_center_term (1 / 4) 2 (3 / 100) 9 [[[1, 0, 1]]] [[[2, 3]]] hshape hne).1⟩

end Echino
